import Mathlib

/-!
Verification development for the Aequi swap aggregator.

This file gives a shallow embedding of the parts of the repository that the
checked properties are about:

* the `AequiExecutor` on-chain contract (`contracts/.../AequiExecutor.sol`,
  present in the sources): `execute` with its five phases
  PullFunds, SetApprovals, PerformCalls, RevokeApprovals, FlushDeltas;
* the execution-plan builder `SwapBuilder.buildExecutorSwap`
  (`packages/core/src/swap-builder.ts`) with its per-hop loop,
  `deriveHopMinOut`, and the single-hop calldata encoders whose byte layout
  follows the ABIs in `packages/core/src/abi.ts`;
* the pure quote math (`apps/server/src/services/price/quote-math.ts`):
  `compareQuotes`, `applyPriceQ18`, `estimateAmountOutFromMidPrice`,
  `computePriceImpactBps`;
* the concentrated-liquidity quote path `PoolDiscovery.computeV3Quote`
  with the `MIN_V3_LIQUIDITY_THRESHOLD` filter
  (`apps/server/src/config/constants.ts`).

Modelling conventions: addresses and uint256 values are natural numbers
(address 0 is the zero address); TypeScript `bigint` quantities, which hold
non-negative on-chain amounts here, are `Nat`, so `x <= 0n` guards become
`x = 0` and bigint division is `Nat` division; call payloads are byte lists;
the effect of an arbitrary external call is a parameter (`CallEnv`), since
callee code is outside the repository; ERC-20 transfers are modelled as
balance-checked moves.  A revert of the whole transaction is modelled by the
executor returning an error and the chain state staying at the pre-state
(`executeTx`).
-/

namespace Aequi

/-- Addresses (and token identifiers) are natural numbers; 0 is the zero address. -/
abbrev Addr := Nat

/-- On-chain state visible to the executor: ERC-20 balances
(token, holder), native balances, and the allowances granted by the
executor (token, spender).  Only the executor's own allowances matter for
the modelled code. -/
structure EVMState where
  erc20 : Addr → Addr → Nat
  native : Addr → Nat
  allowance : Addr → Addr → Nat

/-- TokenPull struct of AequiExecutor. -/
structure TokenPull where
  token : Addr
  amount : Nat
  deriving Repr, DecidableEq

/-- Approval struct of AequiExecutor (the Solidity struct in the sources has
the revokeAfter flag). -/
structure Approval where
  token : Addr
  spender : Addr
  amount : Nat
  revokeAfter : Bool
  deriving Repr, DecidableEq

/-- Call struct of AequiExecutor. -/
structure Call where
  target : Addr
  value : Nat
  data : List Nat
  injectToken : Addr
  injectOffset : Nat
  deriving Repr, DecidableEq

/-- Errors of AequiExecutor.execute.  A failing external call that returned
revert data is re-raised by the contract with that data; both failure shapes
are collapsed into `executionFailed` here. -/
inductive ExecErr where
  | pullFailed (index : Nat)
  | zeroAmountInjection
  | invalidInjectionOffset (offset length : Nat)
  | executionFailed (index : Nat) (target : Addr)
  | sendValueFailed
  deriving Repr, DecidableEq

/-- Effect of dispatching an external call `target.call{value}(data)` from the
executor: `none` is a failed call, `some (st, ret)` a successful one with
return data `ret`.  The callee's code is outside the repository, so the
effect is a parameter of the model. -/
abbrev CallEnv := Addr → Nat → List Nat → EVMState → Option (EVMState × List Nat)

/-- Standard ERC-20 transfer: moves `amount` of `token` from `src` to `dst`,
failing when the balance is insufficient. -/
def erc20Transfer (st : EVMState) (token src dst : Addr) (amount : Nat) : Option EVMState :=
  if amount ≤ st.erc20 token src then
    some { st with erc20 := fun t h =>
      if t = token then
        (if h = src then st.erc20 t h - amount else st.erc20 t h) +
          (if h = dst then amount else 0)
      else st.erc20 t h }
  else none

/-- Native-currency transfer (Address.sendValue). -/
def nativeSend (st : EVMState) (src dst : Addr) (amount : Nat) : Option EVMState :=
  if amount ≤ st.native src then
    some { st with native := fun h =>
      (if h = src then st.native h - amount else st.native h) +
        (if h = dst then amount else 0) }
  else none

/-- SafeERC20.forceApprove: overwrite (not add to) the allowance the executor
grants to `spender` on `token`. -/
def forceApprove (st : EVMState) (token spender : Addr) (amount : Nat) : EVMState :=
  { st with allowance := fun t s =>
      if t = token ∧ s = spender then amount else st.allowance t s }

namespace AequiExecutor

/-- AequiExecutor._snapshotBalances: the executor's balances of the listed tokens. -/
def snapshotBalances (exec : Addr) (tokens : List Addr) (st : EVMState) : List Nat :=
  tokens.map fun t => st.erc20 t exec

/-- AequiExecutor._pullTokens: transferFrom(msg.sender, executor, amount) for
each pull; any failure aborts.  (The sender-to-executor allowance check of
transferFrom is not modelled; only the balance check is.) -/
def pullTokens (exec sender : Addr) : List TokenPull → EVMState → Option EVMState
  | [], st => some st
  | p :: rest, st =>
    match erc20Transfer st p.token sender exec p.amount with
    | none => none
    | some st' => pullTokens exec sender rest st'

/-- AequiExecutor._setApprovals: forceApprove each requested amount. -/
def setApprovals : List Approval → EVMState → EVMState
  | [], st => st
  | a :: rest, st => setApprovals rest (forceApprove st a.token a.spender a.amount)

/-- AequiExecutor._revokeApprovals as written in the Solidity sources: an
approval's allowance is reset to zero only when its revokeAfter flag is set. -/
def revokeApprovals : List Approval → EVMState → EVMState
  | [], st => st
  | a :: rest, st =>
    revokeApprovals rest (if a.revokeAfter then forceApprove st a.token a.spender 0 else st)

/-- Big-endian 32-byte word of a uint256 value, as mstore lays it out. -/
def beWord (v : Nat) : List Nat :=
  (List.range 32).map fun i => v % 2 ^ 256 / 256 ^ (31 - i) % 256

/-- Overwrite the 32-byte word of `data` at byte offset `offset` with the
value `v` (the assembly mstore in _performCalls). -/
def injectWord (data : List Nat) (offset v : Nat) : List Nat :=
  data.take offset ++ beWord v ++ data.drop (offset + 32)

/-- AequiExecutor._performCalls: per call, optionally inject the executor's
live balance of injectToken into the payload, then dispatch; any failure
aborts the whole run. -/
def performCalls (env : CallEnv) (exec : Addr) :
    Nat → List Call → EVMState → Except ExecErr (EVMState × List (List Nat))
  | _, [], st => .ok (st, [])
  | i, c :: rest, st =>
    let dataRes : Except ExecErr (List Nat) :=
      if c.injectToken ≠ 0 then
        let injectedAmount := st.erc20 c.injectToken exec
        if injectedAmount = 0 then .error .zeroAmountInjection
        else if c.injectOffset + 32 > c.data.length then
          .error (.invalidInjectionOffset c.injectOffset c.data.length)
        else .ok (injectWord c.data c.injectOffset injectedAmount)
      else .ok c.data
    match dataRes with
    | .error e => .error e
    | .ok data =>
      match env c.target c.value data st with
      | none => .error (.executionFailed i c.target)
      | some (st', ret) =>
        match performCalls env exec (i + 1) rest st' with
        | .error e => .error e
        | .ok (st'', results) => .ok (st'', ret :: results)

/-- One step of the token loop of AequiExecutor._flushDeltas, over the
(token, snapshotted balance) pairs. -/
def flushTokenDeltas (exec recipient : Addr) : List (Addr × Nat) → EVMState → Option EVMState
  | [], st => some st
  | (token, before) :: rest, st =>
    let balanceAfter := st.erc20 token exec
    if before < balanceAfter then
      match erc20Transfer st token exec recipient (balanceAfter - before) with
      | none => none
      | some st' => flushTokenDeltas exec recipient rest st'
    else flushTokenDeltas exec recipient rest st

/-- AequiExecutor._flushDeltas: return every positive token delta against the
snapshot to the recipient, then the positive native delta. -/
def flushDeltas (exec recipient : Addr) (tokens : List Addr) (balancesBefore : List Nat)
    (ethBalanceBefore : Nat) (st : EVMState) : Option EVMState :=
  match flushTokenDeltas exec recipient (tokens.zip balancesBefore) st with
  | none => none
  | some st' =>
    let ethBalanceAfter := st'.native exec
    if ethBalanceBefore < ethBalanceAfter then
      nativeSend st' exec recipient (ethBalanceAfter - ethBalanceBefore)
    else some st'

/-- AequiExecutor.execute: snapshot, PullFunds, SetApprovals, PerformCalls,
RevokeApprovals, FlushDeltas.  `st₀` is the state at function entry, where
the attached `msgValue` is already part of the executor's native balance. -/
def execute (env : CallEnv) (exec sender : Addr) (msgValue : Nat)
    (pulls : List TokenPull) (approvals : List Approval) (calls : List Call)
    (tokensToFlush : List Addr) (st₀ : EVMState) :
    Except ExecErr (EVMState × List (List Nat)) :=
  let ethBalanceBefore := st₀.native exec - msgValue
  let tokenBalancesBefore := snapshotBalances exec tokensToFlush st₀
  match pullTokens exec sender pulls st₀ with
  | none => .error (.pullFailed 0)
  | some st₁ =>
    let st₂ := setApprovals approvals st₁
    match performCalls env exec 0 calls st₂ with
    | .error e => .error e
    | .ok (st₃, results) =>
      let st₄ := revokeApprovals approvals st₃
      match flushDeltas exec sender tokensToFlush tokenBalancesBefore ethBalanceBefore st₄ with
      | none => .error .sendValueFailed
      | some st₅ => .ok (st₅, results)

/-- Transaction-level view: a revert anywhere inside execute leaves the
chain state unchanged (EVM atomicity). -/
def executeTx (env : CallEnv) (exec sender : Addr) (msgValue : Nat)
    (pulls : List TokenPull) (approvals : List Approval) (calls : List Call)
    (tokensToFlush : List Addr) (st₀ : EVMState) : EVMState :=
  match execute env exec sender msgValue pulls approvals calls tokensToFlush st₀ with
  | .ok (st', _) => st'
  | .error _ => st₀

end AequiExecutor

namespace QuoteMath

/-- Q18 fixed-point scale (config/constants.ts). -/
def Q18 : Nat := 10 ^ 18

/-- Dust filter for constant-product reserves (config/constants.ts). -/
def MIN_V2_RESERVE_THRESHOLD : Nat := 10 ^ 12

/-- Liquidity filter for concentrated-liquidity pools (config/constants.ts):
the constant is 0n in the source. -/
def MIN_V3_LIQUIDITY_THRESHOLD : Nat := 0

/-- pow10 of quote-math.ts; for a Nat decimal count the `value <= 0` clamp of
the source coincides with `10 ^ 0 = 1`. -/
def pow10 (value : Nat) : Nat := 10 ^ value

/-- applyPriceQ18 of quote-math.ts. -/
def applyPriceQ18 (priceQ18 amountIn inDecimals outDecimals : Nat) : Nat :=
  if priceQ18 = 0 ∨ amountIn = 0 then 0
  else
    let inFactor := pow10 inDecimals
    let outFactor := pow10 outDecimals
    let numerator := amountIn * priceQ18 * outFactor
    let denominator := Q18 * inFactor
    if denominator = 0 then 0 else numerator / denominator

/-- estimateAmountOutFromMidPrice of quote-math.ts: flat-fee deduction (fee in
hundredths of a basis point) followed by the Q18 mid-price. -/
def estimateAmountOutFromMidPrice (midPriceQ18 amountIn inDecimals outDecimals fee : Nat) : Nat :=
  if midPriceQ18 = 0 ∨ amountIn = 0 then 0
  else
    let adjustedAmountIn := amountIn - amountIn * fee / 1000000
    applyPriceQ18 midPriceQ18 adjustedAmountIn inDecimals outDecimals

/-- computePriceImpactBps of quote-math.ts. -/
def computePriceImpactBps (midPriceQ18 amountIn amountOut inDecimals outDecimals : Nat) : Nat :=
  if midPriceQ18 = 0 ∨ amountIn = 0 ∨ amountOut = 0 then 0
  else
    let expectedOut := applyPriceQ18 midPriceQ18 amountIn inDecimals outDecimals
    if expectedOut = 0 then 0
    else
      let diff := if amountOut < expectedOut then expectedOut - amountOut else amountOut - expectedOut
      if diff = 0 then 0
      else
        let impact := diff * 10000 / expectedOut
        if 10000000 < impact then 10000000 else impact

/-- The fields of a PriceQuote that compareQuotes reads: amountOut and
liquidityScore are bigint, priceImpactBps an integer number of basis points
(capped at 10,000,000 by computePriceImpactBps). -/
structure RankedQuote where
  amountOut : Nat
  liquidityScore : Nat
  priceImpactBps : Nat
  deriving Repr, DecidableEq

/-- compareQuotes of quote-math.ts: higher amountOut first, ties by higher
liquidityScore, remaining ties by lower priceImpactBps. -/
def compareQuotes (a b : RankedQuote) : Int :=
  if a.amountOut = b.amountOut then
    if a.liquidityScore = b.liquidityScore then
      if a.priceImpactBps ≤ b.priceImpactBps then -1 else 1
    else if b.liquidityScore < a.liquidityScore then -1 else 1
  else if b.amountOut < a.amountOut then -1 else 1

end QuoteMath

namespace PoolDiscovery

/-- Pool state read for a concentrated-liquidity fee tier. -/
structure V3PoolSnapshot where
  poolAddress : Addr
  sqrtPriceX96 : Nat
  liquidity : Nat
  tick : Int
  fee : Nat
  deriving Repr, DecidableEq

/-- Outcome of the SDK pool simulation pool.getOutputAmount, which is library
code outside the repository: a computed output, the characteristic
"No tick data provider" error (which the source turns into a mid-price
estimate), or any other error (which drops the candidate). -/
inductive SimOutcome where
  | ok (amountOut : Nat)
  | tickDataMissing
  | failed
  deriving Repr, DecidableEq

/-- The candidate quote data computeV3Quote produces for a pool. -/
structure V3QuoteResult where
  amountOut : Nat
  approximate : Bool
  priceImpactBps : Nat
  liquidityScore : Nat
  deriving Repr, DecidableEq

/-- PoolDiscovery.computeV3Quote, with the SDK-computed mid price and
simulation outcome as parameters (both come from library code).  The
repository's own logic is kept: the liquidity filter
`liquidity < MIN_V3_LIQUIDITY_THRESHOLD`, the tick-data-missing fallback to
`estimateAmountOutFromMidPrice` marked approximate, the zero-output and
zero-mid-price rejections, and the price-impact computation. -/
def computeV3Quote (midPriceQ18 : Nat) (sim : SimOutcome) (snapshot : V3PoolSnapshot)
    (amountIn inDecimals outDecimals : Nat) : Option V3QuoteResult :=
  if snapshot.liquidity < QuoteMath.MIN_V3_LIQUIDITY_THRESHOLD then none
  else
    match sim with
    | .failed => none
    | .ok amountOutRaw =>
      if amountOutRaw = 0 then none
      else if midPriceQ18 = 0 then none
      else some
        { amountOut := amountOutRaw
          approximate := false
          priceImpactBps :=
            QuoteMath.computePriceImpactBps midPriceQ18 amountIn amountOutRaw inDecimals outDecimals
          liquidityScore := snapshot.liquidity }
    | .tickDataMissing =>
      if midPriceQ18 = 0 then none
      else
        let amountOutRaw :=
          QuoteMath.estimateAmountOutFromMidPrice midPriceQ18 amountIn inDecimals outDecimals
            snapshot.fee
        if amountOutRaw = 0 then none
        else some
          { amountOut := amountOutRaw
            approximate := true
            priceImpactBps := 0
            liquidityScore := snapshot.liquidity }

end PoolDiscovery

namespace SwapBuilder

/-- Venue protocol family tag of DexConfig (packages/core/src/types.ts). -/
inductive Protocol where
  | uniswap
  | pancakeswap
  deriving Repr, DecidableEq

/-- Route hop version tag of types.ts. -/
inductive HopVersion where
  | v2
  | v3
  deriving Repr, DecidableEq

/-- The DexConfig fields buildExecutorSwap reads. -/
structure DexConfig where
  id : Nat
  protocol : Protocol
  version : HopVersion
  routerAddress : Addr
  deriving Repr, DecidableEq

/-- The ChainConfig fields buildExecutorSwap reads; wrappedNativeAddress is
optional because the builder guards against a missing value. -/
structure ChainConfig where
  key : Nat
  wrappedNativeAddress : Option Addr
  dexes : List DexConfig
  deriving Repr, DecidableEq

/-- The PriceSource fields buildExecutorSwap reads (one per hop). -/
structure PriceSource where
  dexId : Nat
  feeTier : Option Nat
  amountIn : Nat
  amountOut : Nat
  deriving Repr, DecidableEq

/-- The PriceQuote fields buildExecutorSwap reads; path holds the token
addresses of the route (the source reads path[i].address). -/
structure PriceQuote where
  amountIn : Nat
  amountOut : Nat
  path : List Addr
  sources : List PriceSource
  hopVersions : List HopVersion
  deriving Repr, DecidableEq

/-- SwapBuilderConfig: executor address per chain key, and the inter-hop
buffer in basis points (already clamped non-negative by the constructor). -/
structure SwapBuilderConfig where
  executorByChain : Nat → Option Addr
  interhopBufferBps : Nat

/-- Errors thrown by buildExecutorSwap (one constructor per throw site). -/
inductive BuilderError where
  | executorNotConfigured
  | missingInputToken
  | wrappedNativeMissing
  | missingTokenMeta
  | missingHopVersion
  | unknownDex
  | missingHopAmountIn
  | insufficientRollingAmount
  | hopAmountNonPositive
  | missingHopAmountOut
  | missingFeeTier
  deriving Repr, DecidableEq

/-- An approval entry the builder emits ("revokeAfter removed" in the source:
the emitted record has no flag). -/
structure ApprovalPlan where
  token : Addr
  spender : Addr
  amount : Nat
  deriving Repr, DecidableEq

/-- A call entry of the executor plan. -/
structure CallPlan where
  target : Addr
  value : Nat
  data : List Nat
  injectToken : Addr
  injectOffset : Nat
  deriving Repr, DecidableEq

/-- Largest uint256, the approval amount for hops after the first. -/
def MAX_UINT256 : Nat := 2 ^ 256 - 1

/-- Function selector of swapExactTokensForTokens (0x38ed1739). -/
def SEL_SWAP_EXACT_TOKENS : List Nat := [0x38, 0xed, 0x17, 0x39]

/-- Function selector of the standard V3 router exactInputSingle (0x414bf389),
whose params struct embeds a deadline field. -/
def SEL_EXACT_INPUT_SINGLE : List Nat := [0x41, 0x4b, 0xf3, 0x89]

/-- Function selector of SwapRouter02 exactInputSingle (0x04e45aaf), whose
params struct has no deadline field. -/
def SEL_EXACT_INPUT_SINGLE_02 : List Nat := [0x04, 0xe4, 0x5a, 0xaf]

/-- Function selector of WETH deposit (0xd0e30db0). -/
def SEL_WETH_DEPOSIT : List Nat := [0xd0, 0xe3, 0x0d, 0xb0]

/-- Function selector of WETH withdraw (0x2e1a7d4d). -/
def SEL_WETH_WITHDRAW : List Nat := [0x2e, 0x1a, 0x7d, 0x4d]

/-- ABI word: identical byte layout to the executor's injected word. -/
def abiWord (v : Nat) : List Nat := AequiExecutor.beWord v

/-- encodeV2SingleHopCall: swapExactTokensForTokens(amountIn, amountOutMin,
[tokenIn, tokenOut], recipient, deadline).  The head holds the two amounts,
the offset (5 words = 160) of the dynamic path array, the recipient and the
deadline; the tail holds the path length and its two entries. -/
def encodeV2SingleHopCall (tokenIn tokenOut amountIn amountOutMin recipient deadline : Nat) :
    List Nat :=
  SEL_SWAP_EXACT_TOKENS ++ abiWord amountIn ++ abiWord amountOutMin ++ abiWord 160 ++
    abiWord recipient ++ abiWord deadline ++ abiWord 2 ++ abiWord tokenIn ++ abiWord tokenOut

/-- encodeV3SingleHopCall: exactInputSingle with a single static params tuple.
SwapRouter02's struct is (tokenIn, tokenOut, fee, recipient, amountIn,
amountOutMinimum, sqrtPriceLimitX96); the standard router's struct inserts
deadline before amountIn.  Throws when the hop has no fee tier. -/
def encodeV3SingleHopCall (tokenIn tokenOut : Nat) (feeTier : Option Nat)
    (amountIn amountOutMin recipient deadline : Nat) (useRouter02 : Bool) :
    Except BuilderError (List Nat) :=
  match feeTier with
  | none => .error .missingFeeTier
  | some fee =>
    if useRouter02 then
      .ok (SEL_EXACT_INPUT_SINGLE_02 ++ abiWord tokenIn ++ abiWord tokenOut ++ abiWord fee ++
        abiWord recipient ++ abiWord amountIn ++ abiWord amountOutMin ++ abiWord 0)
    else
      .ok (SEL_EXACT_INPUT_SINGLE ++ abiWord tokenIn ++ abiWord tokenOut ++ abiWord fee ++
        abiWord recipient ++ abiWord deadline ++ abiWord amountIn ++ abiWord amountOutMin ++
        abiWord 0)

/-- deriveHopMinOut: the final hop receives the overall bounded minimum; an
intermediate hop receives its share of it, scaled by expected output. -/
def deriveHopMinOut (hopExpectedOut totalMinOut totalExpectedOut : Nat) (isLastHop : Bool) :
    Nat :=
  if isLastHop then totalMinOut
  else if totalExpectedOut = 0 ∨ hopExpectedOut = 0 then 0
  else hopExpectedOut * totalMinOut / totalExpectedOut

/-- The hop-amount computation of the buildExecutorSwap loop: clamp the
quoted hop input to the rolling available amount, then, for hops after the
first with a positive configured buffer, subtract the inter-hop buffer (a
basis-point fraction) when it is positive and strictly smaller than the hop
amount. -/
def computeHopAmountIn (cfg : SwapBuilderConfig) (index quotedHopAmountIn availableAmount : Nat) :
    Nat :=
  let clamped := if quotedHopAmountIn ≤ availableAmount then quotedHopAmountIn
    else availableAmount
  if 0 < index ∧ 0 < cfg.interhopBufferBps ∧ 0 < clamped then
    let buffer := clamped * cfg.interhopBufferBps / 10000
    if 0 < buffer ∧ buffer < clamped then clamped - buffer else clamped
  else clamped

/-- Everything one iteration of the buildExecutorSwap hop loop produces: the
approval and call it pushes, plus the loop-local values the iteration
computed (kept so that theorems can speak about them). -/
structure HopPlan where
  approval : ApprovalPlan
  call : CallPlan
  tokenIn : Addr
  tokenOut : Addr
  hopRecipient : Addr
  hopAmountIn : Nat
  hopMinOut : Nat
  scaledHopExpectedOut : Nat
  version : HopVersion
  isUniswapV3 : Bool
  isLastHop : Bool
  deriving Repr, DecidableEq

/-- One iteration of the hop loop of buildExecutorSwap, for the source at
position `index` with the rolling `availableAmount`; `isLast` tells whether
this is the final source. -/
def buildHop (cfg : SwapBuilderConfig) (chain : ChainConfig) (quote : PriceQuote)
    (executorAddress recipient amountOutMin deadline : Nat) (useNativeOutput : Bool)
    (index availableAmount : Nat) (source : PriceSource) (isLast : Bool) :
    Except BuilderError HopPlan :=
  match quote.path[index]? with
  | none => .error .missingTokenMeta
  | some tokenIn =>
    match quote.path[index + 1]? with
    | none => .error .missingTokenMeta
    | some tokenOut =>
      match quote.hopVersions[index]? with
      | none => .error .missingHopVersion
      | some hopVersion =>
        match chain.dexes.find? (fun entry => entry.id = source.dexId) with
        | none => .error .unknownDex
        | some dex =>
          if source.amountIn = 0 then .error .missingHopAmountIn
          else if availableAmount = 0 then .error .insufficientRollingAmount
          else
            let hopAmountIn := computeHopAmountIn cfg index source.amountIn availableAmount
            if hopAmountIn = 0 then .error .hopAmountNonPositive
            else
              let hopRecipient := if isLast ∧ ¬useNativeOutput then recipient
                else executorAddress
              if source.amountOut = 0 then .error .missingHopAmountOut
              else
                let scaledHopExpectedOut := source.amountOut * hopAmountIn / source.amountIn
                let hopMinOut :=
                  deriveHopMinOut scaledHopExpectedOut amountOutMin quote.amountOut isLast
                let isUniswapV3 :=
                  decide (dex.protocol = Protocol.uniswap ∧ hopVersion = HopVersion.v3)
                match
                    (match hopVersion with
                      | HopVersion.v2 =>
                        Except.ok (encodeV2SingleHopCall tokenIn tokenOut hopAmountIn hopMinOut
                          hopRecipient deadline)
                      | HopVersion.v3 =>
                        encodeV3SingleHopCall tokenIn tokenOut source.feeTier hopAmountIn
                          hopMinOut hopRecipient deadline isUniswapV3 :
                      Except BuilderError (List Nat)) with
                | .error e => .error e
                | .ok swapCallData =>
                  .ok
                    { approval :=
                        { token := tokenIn
                          spender := dex.routerAddress
                          amount := if 0 < index then MAX_UINT256 else hopAmountIn }
                      call :=
                        { target := dex.routerAddress
                          value := 0
                          data := swapCallData
                          injectToken := if 0 < index then tokenIn else 0
                          injectOffset :=
                            if 0 < index then
                              if hopVersion = HopVersion.v2 then 4
                              else if isUniswapV3 then 132
                              else 164
                            else 0 }
                      tokenIn := tokenIn
                      tokenOut := tokenOut
                      hopRecipient := hopRecipient
                      hopAmountIn := hopAmountIn
                      hopMinOut := hopMinOut
                      scaledHopExpectedOut := scaledHopExpectedOut
                      version := hopVersion
                      isUniswapV3 := isUniswapV3
                      isLastHop := isLast }

/-- The hop loop of buildExecutorSwap: iterate buildHop over the sources,
rolling the available amount forward to each hop's scaled expected output. -/
def buildHops (cfg : SwapBuilderConfig) (chain : ChainConfig) (quote : PriceQuote)
    (executorAddress recipient amountOutMin deadline : Nat) (useNativeOutput : Bool) :
    Nat → Nat → List PriceSource → Except BuilderError (List HopPlan)
  | _, _, [] => .ok []
  | index, availableAmount, source :: rest =>
    match buildHop cfg chain quote executorAddress recipient amountOutMin deadline
        useNativeOutput index availableAmount source rest.isEmpty with
    | .error e => .error e
    | .ok hop =>
      match buildHops cfg chain quote executorAddress recipient amountOutMin deadline
          useNativeOutput (index + 1) hop.scaledHopExpectedOut rest with
      | .error e => .error e
      | .ok restHops => .ok (hop :: restHops)

/-- Insertion into the tokensToFlush set, preserving first-insertion order
(the source uses a JS Set and Array.from). -/
def insertUnique (xs : List Addr) (x : Addr) : List Addr :=
  if x ∈ xs then xs else xs ++ [x]

/-- The executor argument bundle of the built SwapTransaction, together with
the overall bounded minimum amountOutMinimum. -/
structure ExecutorPlan where
  pulls : List TokenPull
  approvals : List ApprovalPlan
  calls : List CallPlan
  tokensToFlush : List Addr
  amountOutMinimum : Nat
  deriving Repr, DecidableEq

/-- The wrap call prepended for native input: WETH deposit carrying the full
input amount, no injection. -/
def wrapCall (wrappedNative amountIn : Nat) : CallPlan :=
  { target := wrappedNative, value := amountIn, data := SEL_WETH_DEPOSIT,
    injectToken := 0, injectOffset := 0 }

/-- The unwrap call appended for native output: WETH withdraw(0) with the
wrapped balance injected at offset 4. -/
def unwrapCall (wrappedNative : Nat) : CallPlan :=
  { target := wrappedNative, value := 0, data := SEL_WETH_WITHDRAW ++ abiWord 0,
    injectToken := wrappedNative, injectOffset := 4 }

/-- SwapBuilder.buildExecutorSwap: resolve the executor, pull the input token
(unless native input), optionally wrap, run the hop loop starting from the
quote's total input, optionally unwrap, and collect approvals, calls and the
flush set.  The SwapTransaction envelope fields that merely restate these
lists (dexId, router, calldata of the execute call itself) are not
modelled. -/
def buildExecutorSwap (cfg : SwapBuilderConfig) (chain : ChainConfig) (quote : PriceQuote)
    (recipient amountOutMin deadline : Nat) (useNativeInput useNativeOutput : Bool) :
    Except BuilderError ExecutorPlan :=
  match cfg.executorByChain chain.key with
  | none => .error .executorNotConfigured
  | some executorAddress =>
    match quote.path[0]? with
    | none => .error .missingInputToken
    | some inputToken =>
      let pulls : List TokenPull :=
        if useNativeInput then [] else [{ token := inputToken, amount := quote.amountIn }]
      let flush0 : List Addr := if useNativeInput then [] else [inputToken]
      match
          (if useNativeInput then
            match chain.wrappedNativeAddress with
            | some w => Except.ok (some w)
            | none => Except.error .wrappedNativeMissing
          else Except.ok none : Except BuilderError (Option Addr)) with
      | .error e => .error e
      | .ok wrapped =>
        let wrapCalls : List CallPlan := match wrapped with
          | some w => [wrapCall w quote.amountIn]
          | none => []
        let flush1 := match wrapped with
          | some w => insertUnique flush0 w
          | none => flush0
        match buildHops cfg chain quote executorAddress recipient amountOutMin deadline
            useNativeOutput 0 quote.amountIn quote.sources with
        | .error e => .error e
        | .ok hops =>
          let flush2 := hops.foldl (fun acc h =>
            let acc' := insertUnique acc h.tokenIn
            if h.hopRecipient = executorAddress then insertUnique acc' h.tokenOut else acc')
            flush1
          match
              (if useNativeOutput then
                match chain.wrappedNativeAddress with
                | some w => Except.ok (some w)
                | none => Except.error .wrappedNativeMissing
              else Except.ok none : Except BuilderError (Option Addr)) with
          | .error e => .error e
          | .ok unwrapped =>
            let unwrapCalls : List CallPlan := match unwrapped with
              | some w => [unwrapCall w]
              | none => []
            let flush3 := match unwrapped with
              | some w => insertUnique flush2 w
              | none => flush2
            .ok
              { pulls := pulls
                approvals := hops.map HopPlan.approval
                calls := wrapCalls ++ hops.map HopPlan.call ++ unwrapCalls
                tokensToFlush := flush3
                amountOutMinimum := amountOutMin }

/-- Concrete two-hop scenario from the specification: hop 2's quoted input is
500 while hop 1 is quoted to yield only 480.  The venue is a
constant-product router with id 1, the configured inter-hop buffer is the
production value of 3 basis points. -/
def scenarioConfig : SwapBuilderConfig :=
  { executorByChain := fun _ => some 99, interhopBufferBps := 3 }

/-- The scenario configuration with the inter-hop buffer disabled. -/
def scenarioConfigNoBuffer : SwapBuilderConfig :=
  { executorByChain := fun _ => some 99, interhopBufferBps := 0 }

/-- The single configured venue of the scenario chain. -/
def scenarioDex : DexConfig :=
  { id := 1, protocol := .pancakeswap, version := .v2, routerAddress := 50 }

/-- The scenario chain configuration. -/
def scenarioChain : ChainConfig :=
  { key := 0, wrappedNativeAddress := some 77, dexes := [scenarioDex] }

/-- The scenario quote: total input 1000, hop 1 quoted 1000 → 480, hop 2
quoted 500 → 450, token path 11 → 12 → 13. -/
def scenarioQuote : PriceQuote :=
  { amountIn := 1000
    amountOut := 450
    path := [11, 12, 13]
    sources := [ { dexId := 1, feeTier := none, amountIn := 1000, amountOut := 480 },
                 { dexId := 1, feeTier := none, amountIn := 500, amountOut := 450 } ]
    hopVersions := [.v2, .v2] }

end SwapBuilder

/-!
Theorems.  Each claim of the specification review is settled by exactly one
theorem below (plus, where required, a witness instantiating its hypotheses,
or a counterexample).
-/

/-- C8: the route-planner comparison is a strict total order over
(amountOut, liquidityScore, priceImpactBps): on quotes distinct in those
fields compare(a,b) = -compare(b,a); it is transitive across quotes with
distinct amountOut; higher amountOut wins, ties broken by higher
liquidityScore, then by lower priceImpactBps. -/
theorem compareQuotes_strict_total_order (a b c : QuoteMath.RankedQuote) :
    (a ≠ b → QuoteMath.compareQuotes a b = -QuoteMath.compareQuotes b a)
    ∧ (a.amountOut ≠ b.amountOut → b.amountOut ≠ c.amountOut →
        QuoteMath.compareQuotes a b = -1 → QuoteMath.compareQuotes b c = -1 →
        QuoteMath.compareQuotes a c = -1)
    ∧ (b.amountOut < a.amountOut → QuoteMath.compareQuotes a b = -1)
    ∧ (a.amountOut = b.amountOut → b.liquidityScore < a.liquidityScore →
        QuoteMath.compareQuotes a b = -1)
    ∧ (a.amountOut = b.amountOut → a.liquidityScore = b.liquidityScore →
        a.priceImpactBps < b.priceImpactBps → QuoteMath.compareQuotes a b = -1) := by
  obtain ⟨a1, a2, a3⟩ := a
  obtain ⟨b1, b2, b3⟩ := b
  obtain ⟨c1, c2, c3⟩ := c
  refine ⟨?_, ?_, ?_, ?_, ?_⟩
  · intro hne
    have hne' : ¬(a1 = b1 ∧ a2 = b2 ∧ a3 = b3) := by
      intro h
      exact hne (by simp [h.1, h.2.1, h.2.2])
    simp only [QuoteMath.compareQuotes]
    split_ifs <;> omega
  · intro h1 h2 hab hbc
    dsimp only at h1 h2
    simp only [QuoteMath.compareQuotes] at hab hbc ⊢
    split_ifs at hab hbc ⊢ <;> omega
  · intro h
    dsimp only at h
    simp only [QuoteMath.compareQuotes]
    split_ifs <;> omega
  · intro h1 h2
    dsimp only at h1 h2
    simp only [QuoteMath.compareQuotes]
    split_ifs <;> omega
  · intro h1 h2 h3
    dsimp only at h1 h2 h3
    simp only [QuoteMath.compareQuotes]
    split_ifs <;> omega

/-- Witness for C8 at concrete quotes. -/
theorem compareQuotes_strict_total_order_witness :
    QuoteMath.compareQuotes ⟨2, 0, 0⟩ ⟨1, 5, 9⟩ = -QuoteMath.compareQuotes ⟨1, 5, 9⟩ ⟨2, 0, 0⟩ :=
  (compareQuotes_strict_total_order ⟨2, 0, 0⟩ ⟨1, 5, 9⟩ ⟨0, 0, 0⟩).1 (by decide)

/-- C9 counterexample: a concentrated-liquidity pool whose read liquidity
exactly equals MIN_V3_LIQUIDITY_THRESHOLD is not rejected — computeV3Quote
still produces a candidate quote for it (here via the tick-data-missing
estimation path, with a unit mid price, 10^6 input and fee tier 3000). -/
theorem computeV3Quote_at_threshold_yields_quote :
    (⟨1, 10, QuoteMath.MIN_V3_LIQUIDITY_THRESHOLD, 0, 3000⟩ :
        PoolDiscovery.V3PoolSnapshot).liquidity = QuoteMath.MIN_V3_LIQUIDITY_THRESHOLD
    ∧ (PoolDiscovery.computeV3Quote QuoteMath.Q18 .tickDataMissing
        ⟨1, 10, QuoteMath.MIN_V3_LIQUIDITY_THRESHOLD, 0, 3000⟩ 1000000 18 18).isSome = true :=
  ⟨rfl, by decide⟩

/-- C9 amended: the liquidity filter of computeV3Quote rejects only pools
strictly below MIN_V3_LIQUIDITY_THRESHOLD; the configured threshold is 0, so
no pool is below it and whether a candidate quote is produced does not depend
on the pool's liquidity at all. -/
theorem computeV3Quote_liquidity_filter_strict (midPriceQ18 : Nat)
    (sim : PoolDiscovery.SimOutcome) (snapshot : PoolDiscovery.V3PoolSnapshot)
    (amountIn inDecimals outDecimals liquidity' : Nat) :
    QuoteMath.MIN_V3_LIQUIDITY_THRESHOLD = 0
    ∧ ¬snapshot.liquidity < QuoteMath.MIN_V3_LIQUIDITY_THRESHOLD
    ∧ (PoolDiscovery.computeV3Quote midPriceQ18 sim snapshot amountIn inDecimals
        outDecimals).isSome
      = (PoolDiscovery.computeV3Quote midPriceQ18 sim { snapshot with liquidity := liquidity' }
          amountIn inDecimals outDecimals).isSome := by
  refine ⟨rfl, Nat.not_lt_zero _, ?_⟩
  cases sim <;>
      simp [PoolDiscovery.computeV3Quote, QuoteMath.MIN_V3_LIQUIDITY_THRESHOLD] <;>
    split_ifs <;> rfl

/-- C1, evaluated at the failing input: an execute run that succeeds with a
single approval whose revokeAfter flag is false (the shape the canonical plan
builder emits, since it attaches no flag) leaves the spender's allowance at
the approved amount instead of resetting it to zero — _revokeApprovals in the
Solidity sources only revokes entries whose flag is set, although the
builder, the ABI and the package documentation state the contract always
revokes. -/
theorem execute_keeps_unflagged_allowance :
    ∃ st' : EVMState,
      AequiExecutor.execute (fun _ _ _ _ => none) 10 1 0 [] [⟨5, 7, 100, false⟩] [] []
          ⟨fun _ _ => 0, fun _ => 0, fun _ _ => 0⟩ = .ok (st', [])
        ∧ st'.allowance 5 7 = 100 :=
  ⟨_, rfl, rfl⟩

/-! Helper lemmas about 32-byte words and payload injection. -/

theorem beWord_length (v : Nat) : (AequiExecutor.beWord v).length = 32 := by
  simp [AequiExecutor.beWord]

theorem injectWord_take (data : List Nat) (off v : Nat) (h : off ≤ data.length) :
    (AequiExecutor.injectWord data off v).take off = data.take off := by
  have hlen : (data.take off).length = off := by
    simp [List.length_take]
    omega
  rw [AequiExecutor.injectWord, List.append_assoc, List.take_left' hlen]

theorem injectWord_drop_off (data : List Nat) (off v : Nat) (h : off ≤ data.length) :
    (AequiExecutor.injectWord data off v).drop off
      = AequiExecutor.beWord v ++ data.drop (off + 32) := by
  have hlen : (data.take off).length = off := by
    simp [List.length_take]
    omega
  rw [AequiExecutor.injectWord, List.append_assoc, List.drop_left' hlen]

theorem injectWord_window (data : List Nat) (off v : Nat) (h : off ≤ data.length) :
    ((AequiExecutor.injectWord data off v).drop off).take 32 = AequiExecutor.beWord v := by
  rw [injectWord_drop_off data off v h, List.take_left' (beWord_length v)]

theorem injectWord_drop_rest (data : List Nat) (off v : Nat) (h : off ≤ data.length) :
    (AequiExecutor.injectWord data off v).drop (off + 32) = data.drop (off + 32) := by
  have h32 : (AequiExecutor.injectWord data off v).drop (off + 32)
      = ((AequiExecutor.injectWord data off v).drop off).drop 32 := by
    rw [List.drop_drop]
  rw [h32, injectWord_drop_off data off v h, List.drop_left' (beWord_length v)]

theorem injectWord_length (data : List Nat) (off v : Nat) (h : off + 32 ≤ data.length) :
    (AequiExecutor.injectWord data off v).length = data.length := by
  simp [AequiExecutor.injectWord, AequiExecutor.beWord]
  omega

/-- C2: when the executor processes a call entry that declares a non-zero
injection token, it reads its current balance of that token and aborts if the
balance is zero; it aborts (before consulting the callee and thus before any
dispatch; the transaction-level wrapper keeps the pre-state on every abort)
when injectOffset + 32 exceeds the payload length; otherwise it dispatches
the call on a payload equal to the original except that exactly the 32-byte
word at injectOffset now holds the balance. -/
theorem performCalls_injection_contract (env : CallEnv) (exec : Addr) (i : Nat) (c : Call)
    (rest : List Call) (st : EVMState) (hinj : c.injectToken ≠ 0) :
    (st.erc20 c.injectToken exec = 0 →
      AequiExecutor.performCalls env exec i (c :: rest) st = .error .zeroAmountInjection)
    ∧ (st.erc20 c.injectToken exec ≠ 0 → c.data.length < c.injectOffset + 32 →
        AequiExecutor.performCalls env exec i (c :: rest) st
          = .error (.invalidInjectionOffset c.injectOffset c.data.length))
    ∧ (st.erc20 c.injectToken exec ≠ 0 → c.injectOffset + 32 ≤ c.data.length →
        ((AequiExecutor.injectWord c.data c.injectOffset (st.erc20 c.injectToken exec)).take
            c.injectOffset = c.data.take c.injectOffset
          ∧ ((AequiExecutor.injectWord c.data c.injectOffset
                (st.erc20 c.injectToken exec)).drop c.injectOffset).take 32
              = AequiExecutor.beWord (st.erc20 c.injectToken exec)
          ∧ (AequiExecutor.injectWord c.data c.injectOffset
                (st.erc20 c.injectToken exec)).drop (c.injectOffset + 32)
              = c.data.drop (c.injectOffset + 32)
          ∧ (AequiExecutor.injectWord c.data c.injectOffset
                (st.erc20 c.injectToken exec)).length = c.data.length)
        ∧ AequiExecutor.performCalls env exec i (c :: rest) st
          = match env c.target c.value
              (AequiExecutor.injectWord c.data c.injectOffset (st.erc20 c.injectToken exec))
              st with
            | none => .error (.executionFailed i c.target)
            | some (st', ret) =>
              match AequiExecutor.performCalls env exec (i + 1) rest st' with
              | .error e => .error e
              | .ok (st'', results) => .ok (st'', ret :: results))
    ∧ (∀ (sender msgValue : Nat) (pulls : List TokenPull) (approvals : List Approval)
        (calls : List Call) (ftoks : List Addr) (st₀ : EVMState) (e : ExecErr),
        AequiExecutor.execute env exec sender msgValue pulls approvals calls ftoks st₀
            = .error e →
        AequiExecutor.executeTx env exec sender msgValue pulls approvals calls ftoks st₀
          = st₀) := by
  refine ⟨?_, ?_, ?_, ?_⟩
  · intro h0
    simp only [AequiExecutor.performCalls]
    rw [if_pos hinj, if_pos h0]
  · intro hbal hlen
    simp only [AequiExecutor.performCalls]
    rw [if_pos hinj, if_neg hbal, if_pos hlen]
  · intro hbal hoff
    have hle : c.injectOffset ≤ c.data.length := by omega
    refine ⟨⟨injectWord_take _ _ _ hle, injectWord_window _ _ _ hle,
      injectWord_drop_rest _ _ _ hle, injectWord_length _ _ _ hoff⟩, ?_⟩
    simp only [AequiExecutor.performCalls]
    rw [if_pos hinj, if_neg hbal, if_neg (by omega : ¬c.data.length < c.injectOffset + 32)]
  · intro sender msgValue pulls approvals calls ftoks st₀ e h
    simp only [AequiExecutor.executeTx, h]

/-- Witness for C2: a zero balance of the declared injection token makes a
concrete run abort with ZeroAmountInjection. -/
theorem performCalls_injection_contract_witness :
    AequiExecutor.performCalls (fun _ _ _ st => some (st, [])) 2 0
        [{ target := 3, value := 0, data := List.replicate 40 7, injectToken := 5,
           injectOffset := 4 }]
        ⟨fun _ _ => 0, fun _ => 0, fun _ _ => 0⟩
      = .error .zeroAmountInjection :=
  (performCalls_injection_contract (fun _ _ _ st => some (st, [])) 2 0
      { target := 3, value := 0, data := List.replicate 40 7, injectToken := 5,
        injectOffset := 4 } []
      ⟨fun _ _ => 0, fun _ => 0, fun _ _ => 0⟩ (by decide)).1 rfl

/-! Helper lemmas about transfers and the flush phase. -/

theorem erc20Transfer_spec (st : EVMState) (token src dst : Addr) (amount : Nat)
    (st' : EVMState) (h : erc20Transfer st token src dst amount = some st') :
    amount ≤ st.erc20 token src
    ∧ (∀ t h', t ≠ token → st'.erc20 t h' = st.erc20 t h')
    ∧ (∀ h', h' ≠ src → h' ≠ dst → st'.erc20 token h' = st.erc20 token h')
    ∧ (dst ≠ src → st'.erc20 token dst = st.erc20 token dst + amount)
    ∧ st'.native = st.native ∧ st'.allowance = st.allowance := by
  rw [erc20Transfer] at h
  by_cases hle : amount ≤ st.erc20 token src
  · rw [if_pos hle] at h
    cases h
    refine ⟨hle, ?_, ?_, ?_, rfl, rfl⟩
    · intro t h' ht
      simp [ht]
    · intro h' hs hd
      simp [hs, hd]
    · intro hds
      simp [hds]
  · rw [if_neg hle] at h
    simp at h

theorem nativeSend_spec (st : EVMState) (src dst : Addr) (amount : Nat)
    (st' : EVMState) (h : nativeSend st src dst amount = some st') :
    amount ≤ st.native src
    ∧ (dst ≠ src → st'.native dst = st.native dst + amount)
    ∧ st'.erc20 = st.erc20 ∧ st'.allowance = st.allowance := by
  rw [nativeSend] at h
  by_cases hle : amount ≤ st.native src
  · rw [if_pos hle] at h
    cases h
    refine ⟨hle, ?_, rfl, rfl⟩
    intro hds
    simp [hds]
  · rw [if_neg hle] at h
    simp at h

theorem nativeSend_isSome (st : EVMState) (src dst : Addr) (amount : Nat)
    (h : amount ≤ st.native src) : (nativeSend st src dst amount).isSome := by
  rw [nativeSend, if_pos h]
  rfl

theorem flushTokenDeltas_isSome (exec recipient : Addr) :
    ∀ (pairs : List (Addr × Nat)) (st : EVMState),
      (AequiExecutor.flushTokenDeltas exec recipient pairs st).isSome := by
  intro pairs
  induction pairs with
  | nil =>
    intro st
    rfl
  | cons p rest ih =>
    intro st
    obtain ⟨t, b⟩ := p
    simp only [AequiExecutor.flushTokenDeltas]
    by_cases hlt : b < st.erc20 t exec
    · rw [if_pos hlt, erc20Transfer, if_pos (Nat.sub_le _ _)]
      exact ih _
    · rw [if_neg hlt]
      exact ih st

theorem flushTokenDeltas_frame (exec recipient : Addr) :
    ∀ (pairs : List (Addr × Nat)) (st st' : EVMState),
      AequiExecutor.flushTokenDeltas exec recipient pairs st = some st' →
      st'.native = st.native ∧ st'.allowance = st.allowance := by
  intro pairs
  induction pairs with
  | nil =>
    intro st st' h
    cases h
    exact ⟨rfl, rfl⟩
  | cons p rest ih =>
    intro st st' h
    obtain ⟨t, b⟩ := p
    simp only [AequiExecutor.flushTokenDeltas] at h
    by_cases hlt : b < st.erc20 t exec
    · rw [if_pos hlt] at h
      cases htr : erc20Transfer st t exec recipient (st.erc20 t exec - b) with
      | none => rw [htr] at h; simp at h
      | some st₁ =>
        rw [htr] at h
        obtain ⟨_, _, _, _, hn, ha⟩ := erc20Transfer_spec _ _ _ _ _ _ htr
        obtain ⟨hn', ha'⟩ := ih st₁ st' h
        exact ⟨hn'.trans hn, ha'.trans ha⟩
    · rw [if_neg hlt] at h
      exact ih st st' h

theorem flushTokenDeltas_untouched (exec recipient : Addr) (x : Addr) :
    ∀ (pairs : List (Addr × Nat)) (st st' : EVMState),
      (∀ p ∈ pairs, p.1 ≠ x) →
      AequiExecutor.flushTokenDeltas exec recipient pairs st = some st' →
      ∀ h', st'.erc20 x h' = st.erc20 x h' := by
  intro pairs
  induction pairs with
  | nil =>
    intro st st' _ h h'
    cases h
    rfl
  | cons p rest ih =>
    intro st st' hno h h'
    obtain ⟨t, b⟩ := p
    have htx : t ≠ x := hno (t, b) (List.mem_cons_self _ _)
    have hrest : ∀ p ∈ rest, p.1 ≠ x := fun q hq => hno q (List.mem_cons_of_mem _ hq)
    simp only [AequiExecutor.flushTokenDeltas] at h
    by_cases hlt : b < st.erc20 t exec
    · rw [if_pos hlt] at h
      cases htr : erc20Transfer st t exec recipient (st.erc20 t exec - b) with
      | none => rw [htr] at h; simp at h
      | some st₁ =>
        rw [htr] at h
        obtain ⟨_, hother, _, _, _, _⟩ := erc20Transfer_spec _ _ _ _ _ _ htr
        rw [ih st₁ st' hrest h h', hother x h' (Ne.symm htx)]
    · rw [if_neg hlt] at h
      exact ih st st' hrest h h'

theorem flushTokenDeltas_delta (exec recipient : Addr) (hre : recipient ≠ exec) :
    ∀ (pairs : List (Addr × Nat)) (st st' : EVMState),
      (pairs.map Prod.fst).Nodup →
      AequiExecutor.flushTokenDeltas exec recipient pairs st = some st' →
      ∀ i (hi : i < pairs.length),
        st'.erc20 (pairs.get ⟨i, hi⟩).1 recipient
          = st.erc20 (pairs.get ⟨i, hi⟩).1 recipient
            + (st.erc20 (pairs.get ⟨i, hi⟩).1 exec - (pairs.get ⟨i, hi⟩).2) := by
  intro pairs
  induction pairs with
  | nil =>
    intro st st' _ _ i hi
    exact absurd hi (by simp)
  | cons p rest ih =>
    intro st st' hnd h i hi
    obtain ⟨t, b⟩ := p
    have hnd' : (t :: rest.map Prod.fst).Nodup := by
      simpa using hnd
    have hhead : t ∉ rest.map Prod.fst := (List.nodup_cons.mp hnd').1
    have hrest : ∀ q ∈ rest, q.1 ≠ t := by
      intro q hq heq
      exact hhead (heq ▸ List.mem_map_of_mem Prod.fst hq)
    have hndrest : (rest.map Prod.fst).Nodup := (List.nodup_cons.mp hnd').2
    simp only [AequiExecutor.flushTokenDeltas] at h
    by_cases hlt : b < st.erc20 t exec
    · rw [if_pos hlt] at h
      cases htr : erc20Transfer st t exec recipient (st.erc20 t exec - b) with
      | none => rw [htr] at h; simp at h
      | some st₁ =>
        rw [htr] at h
        obtain ⟨_, hother, _, hdst, _, _⟩ := erc20Transfer_spec _ _ _ _ _ _ htr
        match i with
        | 0 =>
          have huntouched := flushTokenDeltas_untouched exec recipient t rest st₁ st' hrest h
          simp only [List.get]
          rw [huntouched recipient, hdst hre]
        | Nat.succ j =>
          have hj : j < rest.length := by
            simpa using hi
          have hne : (rest.get ⟨j, hj⟩).1 ≠ t := hrest _ (List.get_mem rest j hj)
          have := ih st₁ st' hndrest h j hj
          simp only [List.get] at this ⊢
          rw [this, hother _ recipient hne, hother _ exec hne]
    · rw [if_neg hlt] at h
      match i with
      | 0 =>
        have huntouched := flushTokenDeltas_untouched exec recipient t rest st st' hrest h
        have hzero : st.erc20 t exec - b = 0 := Nat.sub_eq_zero_of_le (Nat.not_lt.mp hlt)
        simp only [List.get]
        rw [huntouched recipient, hzero]
        omega
      | Nat.succ j =>
        have hj : j < rest.length := by
          simpa using hi
        have := ih st st' hndrest h j hj
        simp only [List.get] at this ⊢
        exact this

theorem flushDeltas_isSome (exec recipient : Addr) (tokens : List Addr) (snaps : List Nat)
    (ethBefore : Nat) (st : EVMState) :
    (AequiExecutor.flushDeltas exec recipient tokens snaps ethBefore st).isSome := by
  rw [AequiExecutor.flushDeltas]
  cases hft : AequiExecutor.flushTokenDeltas exec recipient (tokens.zip snaps) st with
  | none =>
    have := flushTokenDeltas_isSome exec recipient (tokens.zip snaps) st
    rw [hft] at this
    simp at this
  | some st₁ =>
    dsimp only
    by_cases hlt : ethBefore < st₁.native exec
    · rw [if_pos hlt]
      exact nativeSend_isSome _ _ _ _ (Nat.sub_le _ _)
    · rw [if_neg hlt]
      rfl

theorem flushDeltas_spec (exec recipient : Addr) (hre : recipient ≠ exec)
    (tokens : List Addr) (snaps : List Nat) (ethBefore : Nat) (st st' : EVMState)
    (hnd : tokens.Nodup) (hlen : snaps.length = tokens.length)
    (h : AequiExecutor.flushDeltas exec recipient tokens snaps ethBefore st = some st') :
    (∀ i (hi : i < tokens.length),
      st'.erc20 (tokens.get ⟨i, hi⟩) recipient
        = st.erc20 (tokens.get ⟨i, hi⟩) recipient
          + (st.erc20 (tokens.get ⟨i, hi⟩) exec - snaps.get ⟨i, by omega⟩))
    ∧ st'.native recipient = st.native recipient + (st.native exec - ethBefore) := by
  rw [AequiExecutor.flushDeltas] at h
  cases hft : AequiExecutor.flushTokenDeltas exec recipient (tokens.zip snaps) st with
  | none =>
    rw [hft] at h
    simp at h
  | some st₁ =>
    rw [hft] at h
    dsimp only at h
    have hmap : (tokens.zip snaps).map Prod.fst = tokens :=
      List.map_fst_zip tokens snaps (by omega)
    have hndz : ((tokens.zip snaps).map Prod.fst).Nodup := by
      rw [hmap]
      exact hnd
    have hzlen : (tokens.zip snaps).length = tokens.length := by
      rw [List.length_zip _ _, hlen, Nat.min_self]
    have hdelta := flushTokenDeltas_delta exec recipient hre (tokens.zip snaps) st st₁ hndz hft
    have hframe := flushTokenDeltas_frame exec recipient (tokens.zip snaps) st st₁ hft
    have herc : ∀ i (hi : i < tokens.length),
        st₁.erc20 (tokens.get ⟨i, hi⟩) recipient
          = st.erc20 (tokens.get ⟨i, hi⟩) recipient
            + (st.erc20 (tokens.get ⟨i, hi⟩) exec - snaps.get ⟨i, by omega⟩) := by
      intro i hi
      have hi' : i < (tokens.zip snaps).length := by omega
      have hget : (tokens.zip snaps).get ⟨i, hi'⟩
          = (tokens.get ⟨i, hi⟩, snaps.get ⟨i, by omega⟩) := by
        simp [List.get_eq_getElem, List.getElem_zip]
      have := hdelta i hi'
      rw [hget] at this
      exact this
    by_cases hlt : ethBefore < st₁.native exec
    · rw [if_pos hlt] at h
      obtain ⟨_, hdst, herc', _⟩ := nativeSend_spec _ _ _ _ _ h
      constructor
      · intro i hi
        rw [show st'.erc20 = st₁.erc20 from herc']
        exact herc i hi
      · rw [hdst hre, hframe.1]
    · rw [if_neg hlt] at h
      cases h
      constructor
      · exact herc
      · have hzero : st.native exec - ethBefore = 0 := by
          have := Nat.not_lt.mp hlt
          rw [hframe.1] at this
          omega
        rw [hframe.1, hzero]
        omega

/-- C3: after a successful executor run, for every token in tokensToFlush the
recipient (the original caller) gained exactly the positive part of the
difference between the executor's post-call balance and its pre-call
snapshot, the same holds for native currency against the snapshot excluding
the attached value, and flushing never raises an error on a zero or negative
delta (it is total). -/
theorem execute_flush_deltas (env : CallEnv) (exec sender : Addr) (msgValue : Nat)
    (pulls : List TokenPull) (approvals : List Approval) (calls : List Call)
    (ftoks : List Addr) (st₀ st' : EVMState) (res : List (List Nat))
    (hs : sender ≠ exec) (hnd : ftoks.Nodup)
    (h : AequiExecutor.execute env exec sender msgValue pulls approvals calls ftoks st₀
      = .ok (st', res)) :
    (∀ st₁ : EVMState,
      (AequiExecutor.flushDeltas exec sender ftoks (AequiExecutor.snapshotBalances exec ftoks st₀)
        (st₀.native exec - msgValue) st₁).isSome)
    ∧ ∃ stC : EVMState,
        AequiExecutor.flushDeltas exec sender ftoks
            (AequiExecutor.snapshotBalances exec ftoks st₀) (st₀.native exec - msgValue) stC
          = some st'
        ∧ (∀ i (hi : i < ftoks.length),
            st'.erc20 (ftoks.get ⟨i, hi⟩) sender
              = stC.erc20 (ftoks.get ⟨i, hi⟩) sender
                + (stC.erc20 (ftoks.get ⟨i, hi⟩) exec - st₀.erc20 (ftoks.get ⟨i, hi⟩) exec))
        ∧ st'.native sender
            = stC.native sender + (stC.native exec - (st₀.native exec - msgValue)) := by
  refine ⟨fun st₁ => flushDeltas_isSome exec sender ftoks _ _ st₁, ?_⟩
  simp only [AequiExecutor.execute] at h
  cases hp : AequiExecutor.pullTokens exec sender pulls st₀ with
  | none =>
    rw [hp] at h
    simp at h
  | some st₁ =>
    rw [hp] at h
    dsimp only at h
    cases hc : AequiExecutor.performCalls env exec 0 calls
        (AequiExecutor.setApprovals approvals st₁) with
    | error e =>
      rw [hc] at h
      simp at h
    | ok pair =>
      obtain ⟨st₃, results⟩ := pair
      rw [hc] at h
      dsimp only at h
      cases hf : AequiExecutor.flushDeltas exec sender ftoks
          (AequiExecutor.snapshotBalances exec ftoks st₀) (st₀.native exec - msgValue)
          (AequiExecutor.revokeApprovals approvals st₃) with
      | none =>
        rw [hf] at h
        simp at h
      | some st₅ =>
        rw [hf] at h
        dsimp only at h
        have hst : st₅ = st' := by
          cases h
          rfl
        subst hst
        refine ⟨AequiExecutor.revokeApprovals approvals st₃, hf, ?_, ?_⟩
        · intro i hi
          have hlen : (AequiExecutor.snapshotBalances exec ftoks st₀).length = ftoks.length := by
            simp [AequiExecutor.snapshotBalances]
          have := (flushDeltas_spec exec sender hs ftoks _ _ _ _ hnd hlen hf).1 i hi
          rw [this]
          have hsnap : (AequiExecutor.snapshotBalances exec ftoks st₀).get ⟨i, by omega⟩
              = st₀.erc20 (ftoks.get ⟨i, hi⟩) exec := by
            simp [AequiExecutor.snapshotBalances]
          rw [hsnap]
        · have hlen : (AequiExecutor.snapshotBalances exec ftoks st₀).length = ftoks.length := by
            simp [AequiExecutor.snapshotBalances]
          exact (flushDeltas_spec exec sender hs ftoks _ _ _ _ hnd hlen hf).2

/-- Witness for C3: on a concrete successful run (executor address 2, caller
1, one flushed token) the flush phase is total at a concrete pre-flush
state. -/
theorem execute_flush_deltas_witness :
    (AequiExecutor.flushDeltas 2 1 [5]
      (AequiExecutor.snapshotBalances 2 [5]
        ⟨fun t h => if t = 5 ∧ h = 2 then 3 else 0, fun _ => 4, fun _ _ => 0⟩)
      ((⟨fun t h => if t = 5 ∧ h = 2 then 3 else 0, fun _ => 4, fun _ _ => 0⟩ :
          EVMState).native 2 - 0)
      ⟨fun t h => if t = 5 ∧ h = 2 then 3 else 0, fun _ => 4, fun _ _ => 0⟩).isSome :=
  (execute_flush_deltas (fun _ _ _ st => some (st, [])) 2 1 0 [] [] [] [5]
      ⟨fun t h => if t = 5 ∧ h = 2 then 3 else 0, fun _ => 4, fun _ _ => 0⟩ _ _
      (by decide) (by simp) rfl).1
    ⟨fun t h => if t = 5 ∧ h = 2 then 3 else 0, fun _ => 4, fun _ _ => 0⟩

/-! Helper lemmas about the plan builder. -/

namespace SwapBuilder

theorem computeHopAmountIn_min (cfg : SwapBuilderConfig) (index q a : Nat) :
    computeHopAmountIn cfg index q a
      = (if 0 < index ∧ 0 < cfg.interhopBufferBps ∧ 0 < min q a then
          (if 0 < min q a * cfg.interhopBufferBps / 10000
              ∧ min q a * cfg.interhopBufferBps / 10000 < min q a then
            min q a - min q a * cfg.interhopBufferBps / 10000
          else min q a)
        else min q a) := by
  simp only [computeHopAmountIn, Nat.min_def]

theorem computeHopAmountIn_no_buffer (cfg : SwapBuilderConfig) (index q a : Nat)
    (h : cfg.interhopBufferBps = 0) :
    computeHopAmountIn cfg index q a = min q a := by
  rw [computeHopAmountIn_min, h]
  simp

theorem computeHopAmountIn_pos (cfg : SwapBuilderConfig) (index q a : Nat)
    (hq : q ≠ 0) (ha : a ≠ 0) : computeHopAmountIn cfg index q a ≠ 0 := by
  rw [computeHopAmountIn_min]
  have hm : 0 < min q a := by omega
  split_ifs with h1 h2 <;> omega

theorem buildHop_ok_spec (cfg : SwapBuilderConfig) (chain : ChainConfig) (quote : PriceQuote)
    (executorAddress recipient amountOutMin deadline : Nat) (useNativeOutput : Bool)
    (index availableAmount : Nat) (source : PriceSource) (isLast : Bool) (hop : HopPlan)
    (h : buildHop cfg chain quote executorAddress recipient amountOutMin deadline
      useNativeOutput index availableAmount source isLast = .ok hop) :
    quote.path[index]? = some hop.tokenIn
    ∧ quote.path[index + 1]? = some hop.tokenOut
    ∧ quote.hopVersions[index]? = some hop.version
    ∧ source.amountIn ≠ 0
    ∧ availableAmount ≠ 0
    ∧ hop.hopAmountIn ≠ 0
    ∧ hop.isLastHop = isLast
    ∧ hop.hopAmountIn = computeHopAmountIn cfg index source.amountIn availableAmount
    ∧ hop.scaledHopExpectedOut = source.amountOut * hop.hopAmountIn / source.amountIn
    ∧ hop.hopMinOut
        = deriveHopMinOut hop.scaledHopExpectedOut amountOutMin quote.amountOut isLast
    ∧ hop.approval.token = hop.tokenIn
    ∧ hop.approval.amount = (if 0 < index then MAX_UINT256 else hop.hopAmountIn)
    ∧ hop.call.injectToken = (if 0 < index then hop.tokenIn else 0)
    ∧ hop.call.injectOffset
        = (if 0 < index then
            (if hop.version = HopVersion.v2 then (4 : Nat)
              else if hop.isUniswapV3 then 132 else 164)
          else 0)
    ∧ ((hop.call.data.drop
          (if hop.version = HopVersion.v2 then 4
            else if hop.isUniswapV3 then 132 else 164)).take 32
        = abiWord hop.hopAmountIn) := by
  simp only [buildHop] at h
  cases hp1 : quote.path[index]? with
  | none => rw [hp1] at h; exact absurd h (by simp)
  | some tokenIn =>
  rw [hp1] at h
  cases hp2 : quote.path[index + 1]? with
  | none => rw [hp2] at h; exact absurd h (by simp)
  | some tokenOut =>
  rw [hp2] at h
  cases hv : quote.hopVersions[index]? with
  | none => rw [hv] at h; exact absurd h (by simp)
  | some hopVersion =>
  rw [hv] at h
  cases hd : chain.dexes.find? (fun entry => entry.id = source.dexId) with
  | none => rw [hd] at h; exact absurd h (by simp)
  | some dex =>
  rw [hd] at h
  dsimp only at h
  by_cases hq : source.amountIn = 0
  · rw [if_pos hq] at h
    exact absurd h (by simp)
  rw [if_neg hq] at h
  by_cases ha : availableAmount = 0
  · rw [if_pos ha] at h
    exact absurd h (by simp)
  rw [if_neg ha] at h
  by_cases hz : computeHopAmountIn cfg index source.amountIn availableAmount = 0
  · rw [if_pos hz] at h
    exact absurd h (by simp)
  rw [if_neg hz] at h
  by_cases ho : source.amountOut = 0
  · rw [if_pos ho] at h
    exact absurd h (by simp)
  rw [if_neg ho] at h
  cases hopVersion with
  | v2 =>
    dsimp only at h
    cases h
    exact ⟨rfl, rfl, rfl, hq, ha, hz, rfl, rfl, rfl, rfl, rfl, rfl, rfl, rfl, rfl⟩
  | v3 =>
    cases hf : source.feeTier with
    | none =>
      rw [hf] at h
      exact absurd h (by simp [encodeV3SingleHopCall])
    | some fee =>
      rw [hf] at h
      dsimp only [encodeV3SingleHopCall] at h
      cases hdec : decide (dex.protocol = Protocol.uniswap ∧ HopVersion.v3 = HopVersion.v3) with
      | true =>
        rw [hdec] at h
        rw [if_pos rfl] at h
        cases h
        exact ⟨rfl, rfl, rfl, hq, ha, hz, rfl, rfl, rfl, rfl, rfl, rfl, rfl, rfl, rfl⟩
      | false =>
        rw [hdec] at h
        rw [if_neg (by simp)] at h
        cases h
        exact ⟨rfl, rfl, rfl, hq, ha, hz, rfl, rfl, rfl, rfl, rfl, rfl, rfl, rfl, rfl⟩

theorem buildHops_cons_ok (cfg : SwapBuilderConfig) (chain : ChainConfig) (quote : PriceQuote)
    (executorAddress recipient amountOutMin deadline : Nat) (useNativeOutput : Bool)
    (index avail : Nat) (src : PriceSource) (rest : List PriceSource) (hops : List HopPlan)
    (h : buildHops cfg chain quote executorAddress recipient amountOutMin deadline
      useNativeOutput index avail (src :: rest) = .ok hops) :
    ∃ hop tl,
      buildHop cfg chain quote executorAddress recipient amountOutMin deadline useNativeOutput
          index avail src rest.isEmpty = .ok hop
      ∧ buildHops cfg chain quote executorAddress recipient amountOutMin deadline useNativeOutput
          (index + 1) hop.scaledHopExpectedOut rest = .ok tl
      ∧ hops = hop :: tl := by
  simp only [buildHops] at h
  cases hh : buildHop cfg chain quote executorAddress recipient amountOutMin deadline
      useNativeOutput index avail src rest.isEmpty with
  | error e =>
    rw [hh] at h
    exact absurd h (by simp)
  | ok hop =>
    rw [hh] at h
    dsimp only at h
    cases ht : buildHops cfg chain quote executorAddress recipient amountOutMin deadline
        useNativeOutput (index + 1) hop.scaledHopExpectedOut rest with
    | error e =>
      rw [ht] at h
      exact absurd h (by simp)
    | ok tl =>
      rw [ht] at h
      dsimp only at h
      cases h
      exact ⟨hop, tl, rfl, ht, rfl⟩

theorem buildHops_ok_get (cfg : SwapBuilderConfig) (chain : ChainConfig) (quote : PriceQuote)
    (executorAddress recipient amountOutMin deadline : Nat) (useNativeOutput : Bool) :
    ∀ (srcs : List PriceSource) (index avail : Nat) (hops : List HopPlan),
      buildHops cfg chain quote executorAddress recipient amountOutMin deadline useNativeOutput
          index avail srcs = .ok hops →
      hops.length = srcs.length
      ∧ (∀ i (hi : i < hops.length),
          ∃ availHere srcHere,
            srcs[i]? = some srcHere
            ∧ buildHop cfg chain quote executorAddress recipient amountOutMin deadline
                useNativeOutput (index + i) availHere srcHere (decide (srcs.length = i + 1))
              = .ok (hops.get ⟨i, hi⟩)
            ∧ (i = 0 → availHere = avail)
            ∧ (∀ j (hj : j < hops.length), i = j + 1 →
                availHere = (hops.get ⟨j, hj⟩).scaledHopExpectedOut)) := by
  intro srcs
  induction srcs with
  | nil =>
    intro index avail hops h
    simp only [buildHops] at h
    cases h
    refine ⟨rfl, ?_⟩
    intro i hi
    exact absurd hi (by simp)
  | cons src rest ih =>
    intro index avail hops h
    obtain ⟨hop, tl, hh, ht, rfl⟩ := buildHops_cons_ok cfg chain quote executorAddress recipient
      amountOutMin deadline useNativeOutput index avail src rest hops h
    obtain ⟨hlen, hget⟩ := ih (index + 1) hop.scaledHopExpectedOut tl ht
    refine ⟨by simp [hlen], ?_⟩
    intro i hi
    match i with
    | 0 =>
      refine ⟨avail, src, by simp, ?_, fun _ => rfl, ?_⟩
      · have hiso : rest.isEmpty = decide ((src :: rest).length = 0 + 1) := by
          cases rest <;> simp
        rw [← hiso]
        exact hh
      · intro j hj hij
        exact absurd hij (by omega)
    | Nat.succ j =>
      have hj : j < tl.length := by
        simp at hi
        omega
      obtain ⟨availHere, srcHere, hsome, hbh, h0, hsucc⟩ := hget j hj
      refine ⟨availHere, srcHere, by simpa using hsome, ?_, ?_, ?_⟩
      · have harith : index + 1 + j = index + (j + 1) := by omega
        have hdec2 : decide (rest.length = j + 1)
            = decide ((src :: rest).length = j + 1 + 1) := by simp
        rw [harith, hdec2] at hbh
        exact hbh
      · intro h0'
        exact absurd h0' (by omega)
      · intro k hk hjk
        have hk' : k = j := by omega
        subst hk'
        match k, hk with
        | 0, hk =>
          exact h0 rfl
        | Nat.succ j', hk =>
          have hj' : j' < tl.length := by
            simp at hk
            omega
          exact hsucc j' hj' rfl

theorem buildExecutorSwap_ok_parts (cfg : SwapBuilderConfig) (chain : ChainConfig)
    (quote : PriceQuote) (recipient amountOutMin deadline : Nat)
    (useNativeInput useNativeOutput : Bool) (plan : ExecutorPlan)
    (h : buildExecutorSwap cfg chain quote recipient amountOutMin deadline useNativeInput
      useNativeOutput = .ok plan) :
    ∃ executorAddress hops wrapList unwrapList,
      cfg.executorByChain chain.key = some executorAddress
      ∧ buildHops cfg chain quote executorAddress recipient amountOutMin deadline
          useNativeOutput 0 quote.amountIn quote.sources = .ok hops
      ∧ plan.approvals = hops.map HopPlan.approval
      ∧ plan.calls = wrapList ++ hops.map HopPlan.call ++ unwrapList
      ∧ wrapList.length = (if useNativeInput then 1 else 0)
      ∧ unwrapList.length = (if useNativeOutput then 1 else 0)
      ∧ plan.amountOutMinimum = amountOutMin := by
  simp only [buildExecutorSwap] at h
  cases he : cfg.executorByChain chain.key with
  | none =>
    rw [he] at h
    exact absurd h (by simp)
  | some executorAddress =>
  rw [he] at h
  dsimp only at h
  cases hp0 : quote.path[0]? with
  | none =>
    rw [hp0] at h
    exact absurd h (by simp)
  | some inputToken =>
  rw [hp0] at h
  dsimp only at h
  cases useNativeInput with
  | false =>
    simp only [if_neg (show ¬false = true by simp)] at h
    cases hh : buildHops cfg chain quote executorAddress recipient amountOutMin deadline
        useNativeOutput 0 quote.amountIn quote.sources with
    | error e =>
      rw [hh] at h
      exact absurd h (by simp)
    | ok hops =>
      rw [hh] at h
      dsimp only at h
      cases useNativeOutput with
      | false =>
        simp only [if_neg (show ¬false = true by simp)] at h
        cases h
        exact ⟨executorAddress, hops, [], [], rfl, hh, rfl, by simp, rfl, rfl, rfl⟩
      | true =>
        simp only [if_pos (show true = true from rfl)] at h
        cases hw : chain.wrappedNativeAddress with
        | none =>
          rw [hw] at h
          exact absurd h (by simp)
        | some w =>
          rw [hw] at h
          dsimp only at h
          cases h
          exact ⟨executorAddress, hops, [], [unwrapCall w], rfl, hh, rfl, by simp, rfl, rfl,
            rfl⟩
  | true =>
    simp only [if_pos (show true = true from rfl)] at h
    cases hw : chain.wrappedNativeAddress with
    | none =>
      rw [hw] at h
      exact absurd h (by simp)
    | some w =>
      rw [hw] at h
      dsimp only at h
      cases hh : buildHops cfg chain quote executorAddress recipient amountOutMin deadline
          useNativeOutput 0 quote.amountIn quote.sources with
      | error e =>
        rw [hh] at h
        exact absurd h (by simp)
      | ok hops =>
        rw [hh] at h
        dsimp only at h
        cases useNativeOutput with
        | false =>
          simp only [if_neg (show ¬false = true by simp)] at h
          cases h
          exact ⟨executorAddress, hops, [wrapCall w quote.amountIn], [], rfl, hh, rfl, rfl,
            rfl, rfl, rfl⟩
        | true =>
          simp only [if_pos (show true = true from rfl)] at h
          cases h
          exact ⟨executorAddress, hops, [wrapCall w quote.amountIn], [unwrapCall w], rfl, hh,
            rfl, rfl, rfl, rfl, rfl⟩

theorem buildHop_ne_nonpositive (cfg : SwapBuilderConfig) (chain : ChainConfig)
    (quote : PriceQuote) (executorAddress recipient amountOutMin deadline : Nat)
    (useNativeOutput : Bool) (index availableAmount : Nat) (source : PriceSource)
    (isLast : Bool) :
    buildHop cfg chain quote executorAddress recipient amountOutMin deadline useNativeOutput
        index availableAmount source isLast ≠ .error .hopAmountNonPositive := by
  intro h
  simp only [buildHop] at h
  cases hp1 : quote.path[index]? with
  | none =>
    rw [hp1] at h
    simp at h
  | some tokenIn =>
  rw [hp1] at h
  cases hp2 : quote.path[index + 1]? with
  | none =>
    rw [hp2] at h
    simp at h
  | some tokenOut =>
  rw [hp2] at h
  cases hv : quote.hopVersions[index]? with
  | none =>
    rw [hv] at h
    simp at h
  | some hopVersion =>
  rw [hv] at h
  cases hd : chain.dexes.find? (fun entry => entry.id = source.dexId) with
  | none =>
    rw [hd] at h
    simp at h
  | some dex =>
  rw [hd] at h
  dsimp only at h
  by_cases hq : source.amountIn = 0
  · rw [if_pos hq] at h
    simp at h
  rw [if_neg hq] at h
  by_cases ha : availableAmount = 0
  · rw [if_pos ha] at h
    simp at h
  rw [if_neg ha] at h
  rw [if_neg (computeHopAmountIn_pos cfg index source.amountIn availableAmount hq ha)] at h
  by_cases ho : source.amountOut = 0
  · rw [if_pos ho] at h
    simp at h
  rw [if_neg ho] at h
  cases hopVersion with
  | v2 =>
    dsimp only at h
    simp at h
  | v3 =>
    cases hf : source.feeTier with
    | none =>
      rw [hf] at h
      simp [encodeV3SingleHopCall] at h
    | some fee =>
      rw [hf] at h
      dsimp only [encodeV3SingleHopCall] at h
      cases hdec : decide (dex.protocol = Protocol.uniswap ∧ HopVersion.v3 = HopVersion.v3) with
      | true =>
        rw [hdec, if_pos rfl] at h
        simp at h
      | false =>
        rw [hdec, if_neg (by simp)] at h
        simp at h

theorem buildHops_ne_nonpositive (cfg : SwapBuilderConfig) (chain : ChainConfig)
    (quote : PriceQuote) (executorAddress recipient amountOutMin deadline : Nat)
    (useNativeOutput : Bool) :
    ∀ (srcs : List PriceSource) (index avail : Nat),
      buildHops cfg chain quote executorAddress recipient amountOutMin deadline useNativeOutput
          index avail srcs ≠ .error .hopAmountNonPositive := by
  intro srcs
  induction srcs with
  | nil =>
    intro index avail h
    simp [buildHops] at h
  | cons src rest ih =>
    intro index avail h
    simp only [buildHops] at h
    cases hh : buildHop cfg chain quote executorAddress recipient amountOutMin deadline
        useNativeOutput index avail src rest.isEmpty with
    | error e =>
      rw [hh] at h
      dsimp only at h
      cases h
      exact buildHop_ne_nonpositive cfg chain quote executorAddress recipient amountOutMin
        deadline useNativeOutput index avail src rest.isEmpty hh
    | ok hop =>
      rw [hh] at h
      dsimp only at h
      cases ht : buildHops cfg chain quote executorAddress recipient amountOutMin deadline
          useNativeOutput (index + 1) hop.scaledHopExpectedOut rest with
      | error e =>
        rw [ht] at h
        dsimp only at h
        cases h
        exact ih (index + 1) hop.scaledHopExpectedOut ht
      | ok tl =>
        rw [ht] at h
        simp at h

theorem computeHopAmountIn_index_zero (cfg : SwapBuilderConfig) (q a : Nat) :
    computeHopAmountIn cfg 0 q a = min q a := by
  rw [computeHopAmountIn_min]
  simp

theorem deriveHopMinOut_last (s m t : Nat) : deriveHopMinOut s m t true = m := by
  simp [deriveHopMinOut]

theorem deriveHopMinOut_not_last (s m t : Nat) : deriveHopMinOut s m t false = s * m / t := by
  simp only [deriveHopMinOut, Bool.false_eq_true, if_false]
  split_ifs with h
  · rcases h with h | h <;> simp [h]
  · rfl

/-- C6: in every plan the builder produces there is one approval per hop; the
first hop's approval is for exactly the computed hop amount (the quoted hop
input clamped to the quote's total input), and every later hop's approval is
for the maximum representable uint256 amount. -/
theorem buildExecutorSwap_approval_amounts (cfg : SwapBuilderConfig) (chain : ChainConfig)
    (quote : PriceQuote) (recipient amountOutMin deadline : Nat)
    (useNativeInput useNativeOutput : Bool) (plan : ExecutorPlan)
    (h : buildExecutorSwap cfg chain quote recipient amountOutMin deadline useNativeInput
      useNativeOutput = .ok plan) :
    plan.approvals.length = quote.sources.length
    ∧ (∀ src rest, quote.sources = src :: rest →
        ∀ (h0 : 0 < plan.approvals.length),
          (plan.approvals.get ⟨0, h0⟩).amount = min src.amountIn quote.amountIn)
    ∧ (∀ i (hi : i < plan.approvals.length), 0 < i →
        (plan.approvals.get ⟨i, hi⟩).amount = MAX_UINT256) := by
  obtain ⟨executorAddress, hops, wrapList, unwrapList, he, hh, happr, hcalls, _, _, _⟩ :=
    buildExecutorSwap_ok_parts cfg chain quote recipient amountOutMin deadline useNativeInput
      useNativeOutput plan h
  obtain ⟨hlen, hget⟩ := buildHops_ok_get cfg chain quote executorAddress recipient amountOutMin
    deadline useNativeOutput quote.sources 0 quote.amountIn hops hh
  have hal : plan.approvals.length = hops.length := by
    rw [happr]
    simp
  have hmap : ∀ i (hi : i < plan.approvals.length) (hi' : i < hops.length),
      plan.approvals.get ⟨i, hi⟩ = (hops.get ⟨i, hi'⟩).approval := by
    intro i hi hi'
    simp [happr, List.get_eq_getElem, List.getElem_map]
  refine ⟨by rw [hal, hlen], ?_, ?_⟩
  · intro src rest hsrc h0
    have h0' : 0 < hops.length := by omega
    obtain ⟨availHere, srcHere, hsome, hbh, hA0, _⟩ := hget 0 h0'
    rw [hA0 rfl] at hbh
    have hsrcH : srcHere = src := by
      rw [hsrc] at hsome
      simp at hsome
      exact hsome.symm
    subst hsrcH
    obtain ⟨_, _, _, _, _, _, _, hamt, _, _, _, happam, _, _, _⟩ :=
      buildHop_ok_spec cfg chain quote executorAddress recipient amountOutMin deadline
        useNativeOutput (0 + 0) quote.amountIn srcHere _ _ hbh
    rw [hmap 0 h0 h0', happam, hamt]
    simp [computeHopAmountIn_index_zero]
  · intro i hi hposi
    have hi' : i < hops.length := by omega
    obtain ⟨availHere, srcHere, hsome, hbh, _, _⟩ := hget i hi'
    obtain ⟨_, _, _, _, _, _, _, _, _, _, _, happam, _, _, _⟩ :=
      buildHop_ok_spec cfg chain quote executorAddress recipient amountOutMin deadline
        useNativeOutput (0 + i) availHere srcHere _ _ hbh
    rw [hmap i hi hi', happam]
    simp [hposi]

/-- Witness for C6 at the concrete two-hop scenario. -/
theorem buildExecutorSwap_approval_amounts_witness :
    ∃ plan,
      buildExecutorSwap scenarioConfig scenarioChain scenarioQuote 7 440 123456 false false
        = .ok plan
      ∧ plan.approvals.length = scenarioQuote.sources.length :=
  ⟨_, rfl, (buildExecutorSwap_approval_amounts scenarioConfig scenarioChain scenarioQuote 7 440
    123456 false false _ rfl).1⟩

/-- C10: for every quote whose sources all have strictly positive amountIn
and amountOut, the builder's "Computed hop amountIn is non-positive after
buffer adjustment" branch is unreachable: the inter-hop buffer is subtracted
only when it is positive and strictly smaller than the hop amount, so the
clamped hop amount, positive thanks to the preceding guards, stays
positive. -/
theorem buildExecutorSwap_no_nonpositive_buffer_error (cfg : SwapBuilderConfig)
    (chain : ChainConfig) (quote : PriceQuote) (recipient amountOutMin deadline : Nat)
    (useNativeInput useNativeOutput : Bool)
    (hpos : ∀ s ∈ quote.sources, 0 < s.amountIn ∧ 0 < s.amountOut) :
    buildExecutorSwap cfg chain quote recipient amountOutMin deadline useNativeInput
        useNativeOutput ≠ .error .hopAmountNonPositive := by
  intro h
  simp only [buildExecutorSwap] at h
  cases he : cfg.executorByChain chain.key with
  | none =>
    rw [he] at h
    simp at h
  | some executorAddress =>
  rw [he] at h
  dsimp only at h
  cases hp0 : quote.path[0]? with
  | none =>
    rw [hp0] at h
    simp at h
  | some inputToken =>
  rw [hp0] at h
  dsimp only at h
  cases useNativeInput with
  | false =>
    simp only [if_neg (show ¬false = true by simp)] at h
    cases hh : buildHops cfg chain quote executorAddress recipient amountOutMin deadline
        useNativeOutput 0 quote.amountIn quote.sources with
    | error e =>
      rw [hh] at h
      dsimp only at h
      cases h
      exact buildHops_ne_nonpositive cfg chain quote executorAddress recipient amountOutMin
        deadline useNativeOutput quote.sources 0 quote.amountIn hh
    | ok hops =>
      rw [hh] at h
      dsimp only at h
      cases useNativeOutput with
      | false =>
        simp only [if_neg (show ¬false = true by simp)] at h
        simp at h
      | true =>
        simp only [if_pos (show true = true from rfl)] at h
        cases hw : chain.wrappedNativeAddress with
        | none =>
          rw [hw] at h
          simp at h
        | some w =>
          rw [hw] at h
          simp at h
  | true =>
    simp only [if_pos (show true = true from rfl)] at h
    cases hw : chain.wrappedNativeAddress with
    | none =>
      rw [hw] at h
      simp at h
    | some w =>
      rw [hw] at h
      dsimp only at h
      cases hh : buildHops cfg chain quote executorAddress recipient amountOutMin deadline
          useNativeOutput 0 quote.amountIn quote.sources with
      | error e =>
        rw [hh] at h
        dsimp only at h
        cases h
        exact buildHops_ne_nonpositive cfg chain quote executorAddress recipient amountOutMin
          deadline useNativeOutput quote.sources 0 quote.amountIn hh
      | ok hops =>
        rw [hh] at h
        dsimp only at h
        cases useNativeOutput with
        | false =>
          simp only [if_neg (show ¬false = true by simp)] at h
          simp at h
        | true =>
          simp only [if_pos (show true = true from rfl)] at h
          simp at h

/-- Witness for C10 at the concrete two-hop scenario (all source amounts
positive). -/
theorem buildExecutorSwap_no_nonpositive_buffer_error_witness :
    buildExecutorSwap scenarioConfig scenarioChain scenarioQuote 7 440 123456 false false
      ≠ .error .hopAmountNonPositive :=
  buildExecutorSwap_no_nonpositive_buffer_error scenarioConfig scenarioChain scenarioQuote 7 440
    123456 false false (by decide)

/-- C5: in every plan the builder produces, the final hop's minimum-out is
the overall bounded minimum exactly (so a single-hop plan has no rounding
loss), and every intermediate hop's minimum-out is
scaledHopExpectedOut * totalMinOut / totalExpectedOut with integer
division. -/
theorem buildExecutorSwap_hop_min_out (cfg : SwapBuilderConfig) (chain : ChainConfig)
    (quote : PriceQuote) (recipient amountOutMin deadline : Nat)
    (useNativeInput useNativeOutput : Bool) (plan : ExecutorPlan)
    (h : buildExecutorSwap cfg chain quote recipient amountOutMin deadline useNativeInput
      useNativeOutput = .ok plan) :
    ∃ executorAddress hops,
      cfg.executorByChain chain.key = some executorAddress
      ∧ buildHops cfg chain quote executorAddress recipient amountOutMin deadline
          useNativeOutput 0 quote.amountIn quote.sources = .ok hops
      ∧ (∀ i (hi : i < hops.length),
          (hops.get ⟨i, hi⟩).hopMinOut
            = if i = hops.length - 1 then amountOutMin
              else (hops.get ⟨i, hi⟩).scaledHopExpectedOut * amountOutMin / quote.amountOut)
      ∧ (hops.length = 1 → ∀ (h1 : 0 < hops.length),
          (hops.get ⟨0, h1⟩).hopMinOut = amountOutMin) := by
  obtain ⟨executorAddress, hops, wrapList, unwrapList, he, hh, _, _, _, _, _⟩ :=
    buildExecutorSwap_ok_parts cfg chain quote recipient amountOutMin deadline useNativeInput
      useNativeOutput plan h
  obtain ⟨hlen, hget⟩ := buildHops_ok_get cfg chain quote executorAddress recipient amountOutMin
    deadline useNativeOutput quote.sources 0 quote.amountIn hops hh
  have hper : ∀ i (hi : i < hops.length),
      (hops.get ⟨i, hi⟩).hopMinOut
        = if i = hops.length - 1 then amountOutMin
          else (hops.get ⟨i, hi⟩).scaledHopExpectedOut * amountOutMin / quote.amountOut := by
    intro i hi
    obtain ⟨availHere, srcHere, hsome, hbh, _, _⟩ := hget i hi
    obtain ⟨_, _, _, _, _, _, _, _, _, hmin, _, _, _, _, _⟩ :=
      buildHop_ok_spec cfg chain quote executorAddress recipient amountOutMin deadline
        useNativeOutput (0 + i) availHere srcHere _ _ hbh
    by_cases hlast : i = hops.length - 1
    · have hsl : quote.sources.length = i + 1 := by omega
      have hd : decide (quote.sources.length = i + 1) = true := by
        rw [decide_eq_true_eq]
        exact hsl
      rw [if_pos hlast, hmin, hd, deriveHopMinOut_last]
    · have hsl : quote.sources.length ≠ i + 1 := by omega
      have hd : decide (quote.sources.length = i + 1) = false := by
        simp [hsl]
      rw [if_neg hlast, hmin, hd, deriveHopMinOut_not_last]
  refine ⟨executorAddress, hops, he, hh, hper, ?_⟩
  intro hone h1
  have := hper 0 h1
  simpa [hone] using this

/-- Witness for C5 at the concrete two-hop scenario. -/
theorem buildExecutorSwap_hop_min_out_witness :
    ∃ executorAddress hops,
      scenarioConfig.executorByChain scenarioChain.key = some executorAddress
      ∧ buildHops scenarioConfig scenarioChain scenarioQuote executorAddress 7 440 123456 false
          0 scenarioQuote.amountIn scenarioQuote.sources = .ok hops
      ∧ (∀ i (hi : i < hops.length),
          (hops.get ⟨i, hi⟩).hopMinOut
            = if i = hops.length - 1 then 440
              else (hops.get ⟨i, hi⟩).scaledHopExpectedOut * 440 / scenarioQuote.amountOut)
      ∧ (hops.length = 1 → ∀ (h1 : 0 < hops.length),
          (hops.get ⟨0, h1⟩).hopMinOut = 440) :=
  buildExecutorSwap_hop_min_out scenarioConfig scenarioChain scenarioQuote 7 440 123456 false
    false _ rfl

/-- C7: in every plan the builder produces, hop 0's call injects nothing
(zero injectToken and zero offset); every later hop's call injects that hop's
input token at the venue-determined byte offset — 4 for a constant-product
swap call, 132 for the SwapRouter02 exact-input-single call whose params
struct has no deadline field, 164 for the standard V3 router call whose
struct embeds a deadline — and in every hop's encoded payload the 32-byte
word at that offset is exactly the hop's amountIn word. -/
theorem buildExecutorSwap_injection_offsets (cfg : SwapBuilderConfig) (chain : ChainConfig)
    (quote : PriceQuote) (recipient amountOutMin deadline : Nat)
    (useNativeInput useNativeOutput : Bool) (plan : ExecutorPlan)
    (h : buildExecutorSwap cfg chain quote recipient amountOutMin deadline useNativeInput
      useNativeOutput = .ok plan) :
    ∃ executorAddress hops wrapList unwrapList,
      cfg.executorByChain chain.key = some executorAddress
      ∧ buildHops cfg chain quote executorAddress recipient amountOutMin deadline
          useNativeOutput 0 quote.amountIn quote.sources = .ok hops
      ∧ plan.calls = wrapList ++ hops.map HopPlan.call ++ unwrapList
      ∧ wrapList.length = (if useNativeInput then 1 else 0)
      ∧ unwrapList.length = (if useNativeOutput then 1 else 0)
      ∧ hops.length = quote.sources.length
      ∧ (∀ i (hi : i < hops.length),
          quote.path[i]? = some (hops.get ⟨i, hi⟩).tokenIn
          ∧ quote.hopVersions[i]? = some (hops.get ⟨i, hi⟩).version
          ∧ (i = 0 → (hops.get ⟨i, hi⟩).call.injectToken = 0
              ∧ (hops.get ⟨i, hi⟩).call.injectOffset = 0)
          ∧ (0 < i → (hops.get ⟨i, hi⟩).call.injectToken = (hops.get ⟨i, hi⟩).tokenIn
              ∧ (hops.get ⟨i, hi⟩).call.injectOffset
                  = (if (hops.get ⟨i, hi⟩).version = HopVersion.v2 then 4
                      else if (hops.get ⟨i, hi⟩).isUniswapV3 then 132 else 164))
          ∧ ((hops.get ⟨i, hi⟩).call.data.drop
                (if (hops.get ⟨i, hi⟩).version = HopVersion.v2 then 4
                  else if (hops.get ⟨i, hi⟩).isUniswapV3 then 132 else 164)).take 32
              = abiWord (hops.get ⟨i, hi⟩).hopAmountIn) := by
  obtain ⟨executorAddress, hops, wrapList, unwrapList, he, hh, happr, hcalls, hwl, hul, _⟩ :=
    buildExecutorSwap_ok_parts cfg chain quote recipient amountOutMin deadline useNativeInput
      useNativeOutput plan h
  obtain ⟨hlen, hget⟩ := buildHops_ok_get cfg chain quote executorAddress recipient amountOutMin
    deadline useNativeOutput quote.sources 0 quote.amountIn hops hh
  refine ⟨executorAddress, hops, wrapList, unwrapList, he, hh, hcalls, hwl, hul, hlen, ?_⟩
  intro i hi
  obtain ⟨availHere, srcHere, hsome, hbh, _, _⟩ := hget i hi
  obtain ⟨hpath, _, hver, _, _, _, _, _, _, _, _, _, htok, hoff, hwin⟩ :=
    buildHop_ok_spec cfg chain quote executorAddress recipient amountOutMin deadline
      useNativeOutput (0 + i) availHere srcHere _ _ hbh
  refine ⟨by simpa using hpath, by simpa using hver, ?_, ?_, hwin⟩
  · intro hzero
    subst hzero
    rw [htok, hoff]
    simp
  · intro hposi
    rw [htok, hoff]
    simp [hposi]

/-- Witness for C7 at the concrete two-hop scenario. -/
theorem buildExecutorSwap_injection_offsets_witness :
    ∃ plan,
      buildExecutorSwap scenarioConfig scenarioChain scenarioQuote 7 440 123456 false false
        = .ok plan
      ∧ ∃ executorAddress hops wrapList unwrapList,
          scenarioConfig.executorByChain scenarioChain.key = some executorAddress
          ∧ buildHops scenarioConfig scenarioChain scenarioQuote executorAddress 7 440 123456
              false 0 scenarioQuote.amountIn scenarioQuote.sources = .ok hops
          ∧ plan.calls = wrapList ++ hops.map HopPlan.call ++ unwrapList
          ∧ wrapList.length = (if false then 1 else 0)
          ∧ unwrapList.length = (if false then 1 else 0)
          ∧ hops.length = scenarioQuote.sources.length
          ∧ (∀ i (hi : i < hops.length),
              scenarioQuote.path[i]? = some (hops.get ⟨i, hi⟩).tokenIn
              ∧ scenarioQuote.hopVersions[i]? = some (hops.get ⟨i, hi⟩).version
              ∧ (i = 0 → (hops.get ⟨i, hi⟩).call.injectToken = 0
                  ∧ (hops.get ⟨i, hi⟩).call.injectOffset = 0)
              ∧ (0 < i → (hops.get ⟨i, hi⟩).call.injectToken = (hops.get ⟨i, hi⟩).tokenIn
                  ∧ (hops.get ⟨i, hi⟩).call.injectOffset
                      = (if (hops.get ⟨i, hi⟩).version = HopVersion.v2 then 4
                          else if (hops.get ⟨i, hi⟩).isUniswapV3 then 132 else 164))
              ∧ ((hops.get ⟨i, hi⟩).call.data.drop
                    (if (hops.get ⟨i, hi⟩).version = HopVersion.v2 then 4
                      else if (hops.get ⟨i, hi⟩).isUniswapV3 then 132 else 164)).take 32
                  = abiWord (hops.get ⟨i, hi⟩).hopAmountIn) :=
  ⟨_, rfl, buildExecutorSwap_injection_offsets scenarioConfig scenarioChain scenarioQuote 7 440
    123456 false false _ rfl⟩

/-- C4: the hop loop starts its rolling available amount at the value the
builder passes (the quote's total input) and, with no inter-hop buffer
configured, each hop consumes exactly min(quoted hop input, available
amount), rolling the scaled expected output forward; at the concrete
scenario where hop 2's quoted input 500 exceeds hop 1's quoted yield 480, the
built plan consumes 480 on hop 2 and hop 2's call carries the non-zero
injectToken 12 (hop 2's input token). -/
theorem buildHops_rolling_clamp :
    (∀ (cfg : SwapBuilderConfig) (chain : ChainConfig) (quote : PriceQuote)
        (executorAddress recipient amountOutMin deadline : Nat) (useNativeOutput : Bool)
        (index avail : Nat) (src : PriceSource) (rest : List PriceSource)
        (hops : List HopPlan),
      cfg.interhopBufferBps = 0 →
      buildHops cfg chain quote executorAddress recipient amountOutMin deadline useNativeOutput
          index avail (src :: rest) = .ok hops →
      ∃ hop tl, hops = hop :: tl
        ∧ hop.hopAmountIn = min src.amountIn avail
        ∧ buildHops cfg chain quote executorAddress recipient amountOutMin deadline
            useNativeOutput (index + 1) hop.scaledHopExpectedOut rest = .ok tl)
    ∧ (∃ plan hops,
        buildExecutorSwap scenarioConfig scenarioChain scenarioQuote 7 440 123456 false false
          = .ok plan
        ∧ buildHops scenarioConfig scenarioChain scenarioQuote 99 7 440 123456 false 0
            scenarioQuote.amountIn scenarioQuote.sources = .ok hops
        ∧ scenarioQuote.sources.map PriceSource.amountIn = [1000, 500]
        ∧ hops.map HopPlan.hopAmountIn = [1000, 480]
        ∧ plan.calls.map CallPlan.injectToken = [0, 12]
        ∧ (12 : Nat) ≠ 0) := by
  constructor
  · intro cfg chain quote executorAddress recipient amountOutMin deadline useNativeOutput index
      avail src rest hops hbps h
    obtain ⟨hop, tl, hh, ht, rfl⟩ := buildHops_cons_ok cfg chain quote executorAddress recipient
      amountOutMin deadline useNativeOutput index avail src rest hops h
    obtain ⟨_, _, _, _, _, _, _, hamt, _, _, _, _, _, _, _⟩ :=
      buildHop_ok_spec cfg chain quote executorAddress recipient amountOutMin deadline
        useNativeOutput index avail src _ _ hh
    exact ⟨hop, tl, rfl, by rw [hamt, computeHopAmountIn_no_buffer cfg index _ _ hbps], ht⟩
  · exact ⟨_, _, rfl, rfl, rfl, rfl, rfl, by decide⟩

/-- Witness for C4: the clamp fact applied at the no-buffer configuration on
the scenario sources. -/
theorem buildHops_rolling_clamp_witness :
    ∃ hops,
      buildHops scenarioConfigNoBuffer scenarioChain scenarioQuote 99 7 440 123456 false 0 1000
          scenarioQuote.sources = .ok hops
      ∧ ∃ hop tl, hops = hop :: tl
        ∧ hop.hopAmountIn = min 1000 1000
        ∧ buildHops scenarioConfigNoBuffer scenarioChain scenarioQuote 99 7 440 123456 false 1
            hop.scaledHopExpectedOut [⟨1, none, 500, 450⟩] = .ok tl :=
  ⟨_, rfl, buildHops_rolling_clamp.1 scenarioConfigNoBuffer scenarioChain scenarioQuote 99 7 440
    123456 false 0 1000 ⟨1, none, 1000, 480⟩ [⟨1, none, 500, 450⟩] _ rfl rfl⟩

end SwapBuilder

end Aequi
